import Mathlib

/-!
Shallow embedding of the shard-topology and driver-side output layer of the
gleam dataflow engine (files `flow/dataset_partition.go` and
`flow/dataset_output.go`): the dataset/flow graph model, `RoundRobin` and
`Partition` (scatter + collect), the driver-side `Output` aggregation loop,
and the row-value coercion helper `setValueTo` together with the
`SaveFirstRowTo` per-field assignment loops.

Graph-builder primitives (`newNextDataset`, `AddOneToAllStep`,
`AddOneToEveryNStep`, `AddLinkedNToOneStep`, `AddAllToOneStep`) are not part
of the excerpted core; they are modelled from the spec (§4.1): `newDataset`
allocates a dataset with the given shard count and an empty partition key,
and each step-insertion call appends exactly one step to the flow.
-/

namespace Gleam

/-- A dataset handle: `shards` models `len(d.Shards)`, `isPartitionedBy`
models the `IsPartitionedBy []int` field; `id` distinguishes handles. -/
structure Dataset where
  id : Nat
  shards : Nat
  isPartitionedBy : List Int
deriving DecidableEq

/-- Structural fanout shape of a step, named after the graph-builder call
that creates it (`AddOneToAllStep`, `AddOneToEveryNStep` with its factor,
`AddLinkedNToOneStep` with its group size, `AddAllToOneStep`). -/
inductive FanoutShape where
  | oneToAll : FanoutShape
  | oneToEveryN : Nat → FanoutShape
  | linkedNToOne : Nat → FanoutShape
  | allToOne : FanoutShape
deriving DecidableEq

/-- The instruction attached to a step via `step.SetInstruction`. -/
inductive Instr where
  | roundRobin : Instr
  | scatterPartitions : List Int → Instr
  | collectPartitions : Instr
  | output : Instr
deriving DecidableEq

/-- A graph step: its name, input dataset, output dataset (`none` for the
driver-side Output step, which is created with a nil output), fanout shape,
instruction, and the `IsOnDriverSide` flag. -/
structure Step where
  name : String
  input : Dataset
  output : Option Dataset
  shape : FanoutShape
  instr : Instr
  isOnDriverSide : Bool
deriving DecidableEq

/-- The flow graph: a fresh-id counter for datasets and the list of steps
inserted so far. -/
structure Flow where
  nextId : Nat
  steps : List Step
deriving DecidableEq

/-- Modelled from the spec: `newNextDataset` (graph model, not under src/)
"allocates a Dataset with the given shard count and empty partition key;
pure allocation, no failure mode" (§4.1). -/
def newNextDataset (fl : Flow) (shardCount : Nat) : Flow × Dataset :=
  (Flow.mk (fl.nextId + 1) fl.steps, Dataset.mk fl.nextId shardCount [])

/-- Modelled from the spec: the graph-builder `insertStep` capability
(§4.1, not under src/) appends one step to the flow. -/
def addStep (fl : Flow) (s : Step) : Flow :=
  Flow.mk fl.nextId (fl.steps ++ [s])

/-- Modelled from the spec: `AddOneToAllStep` inserts one step with the
one-to-all (all-inputs-to-all-outputs) shape; the instruction is attached
by the caller via `SetInstruction`. -/
def AddOneToAllStep (fl : Flow) (input output : Dataset) (nm : String) (ins : Instr) : Flow :=
  addStep fl (Step.mk nm input (some output) FanoutShape.oneToAll ins false)

/-- Modelled from the spec: `AddOneToEveryNStep` inserts one step with the
one-to-every-N shape. -/
def AddOneToEveryNStep (fl : Flow) (input : Dataset) (m : Nat) (output : Dataset)
    (nm : String) (ins : Instr) : Flow :=
  addStep fl (Step.mk nm input (some output) (FanoutShape.oneToEveryN m) ins false)

/-- Modelled from the spec: `AddLinkedNToOneStep` inserts one step with the
linked-N-to-one shape and the given group size. -/
def AddLinkedNToOneStep (fl : Flow) (input : Dataset) (groupSize : Nat) (output : Dataset)
    (nm : String) (ins : Instr) : Flow :=
  addStep fl (Step.mk nm input (some output) (FanoutShape.linkedNToOne groupSize) ins false)

/-- `func (d *Dataset) RoundRobin(name string, shard int) *Dataset`:
short-circuits when `len(d.Shards) == shard`, otherwise allocates the next
dataset with `shard` shards and inserts one one-to-all step carrying the
RoundRobin instruction. -/
def RoundRobin (fl : Flow) (d : Dataset) (nm : String) (shard : Nat) : Flow × Dataset :=
  if d.shards == shard then (fl, d)
  else
    let r := newNextDataset fl shard
    (AddOneToAllStep r.1 d r.2 nm Instr.roundRobin, r.2)

/-- `func intArrayEquals(a []int, b []int) bool`: length check followed by
an element-wise comparison loop. -/
def intArrayEquals (a b : List Int) : Bool :=
  if a.length = b.length then (List.zip a b).all (fun p => p.1 == p.2) else false

/-- `func (d *Dataset) partition_scatter(...)`: allocates
`len(d.Shards) * shardCount` intermediate shards, sets the partition key to
`indexes`, and inserts a one-to-every-N step with the ScatterPartitions
instruction. -/
def partition_scatter (fl : Flow) (d : Dataset) (nm : String) (shardCount : Nat)
    (indexes : List Int) : Flow × Dataset :=
  let r := newNextDataset fl (d.shards * shardCount)
  let ret := Dataset.mk r.2.id r.2.shards indexes
  (AddOneToEveryNStep r.1 d shardCount ret nm (Instr.scatterPartitions indexes), ret)

/-- `func (d *Dataset) partition_collect(...)`: allocates `shardCount` final
shards, sets the partition key to `indexes`, and inserts a linked-N-to-one
step with group size `len(d.Shards)/shardCount` and the CollectPartitions
instruction. -/
def partition_collect (fl : Flow) (d : Dataset) (nm : String) (shardCount : Nat)
    (indexes : List Int) : Flow × Dataset :=
  let r := newNextDataset fl shardCount
  let ret := Dataset.mk r.2.id r.2.shards indexes
  (AddLinkedNToOneStep r.1 d (d.shards / shardCount) ret nm Instr.collectPartitions, ret)

/-- `func (d *Dataset) Partition(name string, shard int, sortOption *SortOption)`:
`indexes` stands for `sortOption.Indexes()`. Two short-circuit returns, then
scatter followed (only when `shard > 1`) by collect, finally setting
`ret.IsPartitionedBy = indexes`. -/
def Partition (fl : Flow) (d : Dataset) (nm : String) (shard : Nat)
    (indexes : List Int) : Flow × Dataset :=
  if intArrayEquals d.isPartitionedBy indexes && (shard == d.shards) then (fl, d)
  else if (1 == d.shards) && (shard == 1) then (fl, d)
  else
    let s := partition_scatter fl d nm shard indexes
    let c := if shard > 1 then partition_collect s.1 s.2 nm shard indexes else s
    (c.1, Dataset.mk c.2.id c.2.shards indexes)

/-- Graph-level part of `func (d *Dataset) Output(f func(io.Reader) error)`:
inserts an all-to-one driver-side step named "Output" (created with a nil
output dataset) and returns `d` itself. -/
def Output (fl : Flow) (d : Dataset) : Flow × Dataset :=
  (addStep fl (Step.mk "Output" d none FanoutShape.allToOne Instr.output true), d)

/-- A concrete empty flow used by the concrete-input checks below. -/
def flow0 : Flow := Flow.mk 0 []

/-- A concrete two-shard unpartitioned dataset. -/
def dsTwo : Dataset := Dataset.mk 100 2 []

/-- A concrete two-shard dataset already partitioned by field 1. -/
def dsKeyed : Dataset := Dataset.mk 7 2 [1]

/-!
Runtime model of the `Output` step function:

```go
errChan := make(chan error, len(readers))
for i, reader := range readers {
    go func(i int, reader io.Reader) { errChan <- f(reader) }(i, reader)
}
for range readers {
    err := <-errChan
    if err != nil { ...; return err }
}
return nil
```

A per-shard handler result is an `Option String` (`none` = nil error).
`results` lists each shard's handler result by shard index; the scheduler
chooses `order`, the completion order in which the goroutines finish and
deposit on the channel (a permutation of the shard indexes). The channel is
FIFO, so the aggregation loop receives deposits in completion order.
-/

/-- A Go buffered channel: capacity and current FIFO buffer. -/
structure GoChan (α : Type) where
  capacity : Nat
  buffer : List α
deriving DecidableEq

/-- `make(chan T, cap)`: an empty buffered channel of the given capacity. -/
def makeChan (α : Type) (cap : Nat) : GoChan α := GoChan.mk cap []

/-- A channel send completes without blocking iff the buffer is not full. -/
def GoChan.trySend (c : GoChan α) (a : α) : Option (GoChan α) :=
  if c.buffer.length < c.capacity then some (GoChan.mk c.capacity (c.buffer ++ [a]))
  else none

/-- Sequentially deposit a list of values; `none` if any send would block. -/
def sendAll (c : GoChan α) : List α → Option (GoChan α)
  | [] => some c
  | a :: rest =>
    match c.trySend a with
    | some c2 => sendAll c2 rest
    | none => none

/-- The channel created by the `Output` step function:
`make(chan error, len(readers))`, one reader per input shard. -/
def outputErrChan (numReaders : Nat) : GoChan (Option String) :=
  makeChan (Option String) numReaders

/-- The channel contents in completion order: the goroutine for shard `i`
deposits shard `i`'s handler result. -/
def chanContents (results : List (Option String)) (order : List Nat) :
    List (Nat × Option String) :=
  order.map (fun i => (i, results.getD i none))

/-- The error values received by the aggregation loop, in completion order. -/
def sentErrors (results : List (Option String)) (order : List Nat) :
    List (Option String) :=
  (chanContents results order).map Prod.snd

/-- The aggregation loop `for range readers { err := <-errChan; ... }`:
iterates at most `n = len(readers)` times, receiving the next completion
each time; returns the first non-nil error, else nil after `n` receives.
(The empty-channel case would block in Go; it is unreachable when every
reader's goroutine deposits exactly once, i.e. when the channel carries a
full completion order.) -/
def aggLoop : Nat → List (Option String) → Option String
  | 0, _ => none
  | _ + 1, [] => none
  | n + 1, e :: rest =>
    match e with
    | some msg => some msg
    | none => aggLoop n rest

/-- Number of receives the aggregation loop performs before returning. -/
def aggReadCount : Nat → List (Option String) → Nat
  | 0, _ => 0
  | _ + 1, [] => 0
  | n + 1, e :: rest =>
    match e with
    | some _ => 1
    | none => aggReadCount n rest + 1

/-- The value the `Output` step function returns for a given execution. -/
def outputRun (results : List (Option String)) (order : List Nat) : Option String :=
  aggLoop results.length (sentErrors results order)

/-- How many completions the aggregator drains for a given execution. -/
def aggReads (results : List (Option String)) (order : List Nat) : Nat :=
  aggReadCount results.length (sentErrors results order)

/-- The shard indexes whose completion results the aggregator actually
reads, in the order it reads them. -/
def drainedShards (results : List (Option String)) (order : List Nat) : List Nat :=
  ((chanContents results order).take (aggReads results order)).map Prod.fst

/-!
Model of `setValueTo(src, dst interface{}) error` and the two
`SaveFirstRowTo` assignment loops. A dynamic row field value is one of the
scalar kinds carried by decoded rows; a destination is classified by the
pointer type the Go type switch dispatches on. Float payloads are not
modelled numerically (their numeric semantics is irrelevant to the claims
at stake); only the float kind is tracked.
-/

/-- A dynamically-typed field value. -/
inductive GoValue where
  | str : String → GoValue
  | bytes : List Nat → GoValue
  | int : Int → GoValue
  | bool : Bool → GoValue
  | float : GoValue
deriving DecidableEq

/-- The destination classification relevant to the `setValueTo` type
switch: one case per supported pointer type, plus a pointer to any other
type (`ptrOther`), a non-pointer value, and an untyped nil interface. -/
inductive DstKind where
  | ptrString : DstKind
  | ptrBytes : DstKind
  | ptrInt : DstKind
  | ptrInt8 : DstKind
  | ptrInt16 : DstKind
  | ptrInt32 : DstKind
  | ptrInt64 : DstKind
  | ptrUint : DstKind
  | ptrUint8 : DstKind
  | ptrUint16 : DstKind
  | ptrUint32 : DstKind
  | ptrUint64 : DstKind
  | ptrBool : DstKind
  | ptrFloat32 : DstKind
  | ptrFloat64 : DstKind
  | ptrOther : DstKind
  | nonPtr : DstKind
  | nilDst : DstKind
deriving DecidableEq

/-- Outcome of `setValueTo`: a nil-error return carrying the value written
through the destination pointer (`none` when no switch case matched and
nothing was written), a non-nil error return, or a run-time panic from a
failed unchecked type assertion. -/
inductive SetResult where
  | ok : Option GoValue → SetResult
  | err : String → SetResult
  | panics : SetResult
deriving DecidableEq

/-- Modelled from the spec: `gio.ToString` (gio package, not under src/) —
a total conversion of any dynamic value to text; §4.5 permits conversion
into text and the function neither fails nor panics, which is the only
property the theorems below rely on. -/
def gioToString : GoValue → String
  | GoValue.str s => s
  | GoValue.bytes b => String.mk (b.map Char.ofNat)
  | GoValue.int i => toString i
  | GoValue.bool b => toString b
  | GoValue.float => "0"

/-- Modelled from the spec: `gio.ToInt64` (gio package, not under src/) —
a total numeric conversion (§4.5: numeric widening/narrowing is permitted)
that neither fails nor panics, which is the only property the theorems
below rely on. -/
def gioToInt64 : GoValue → Int
  | GoValue.int i => i
  | _ => 0

/-- Two's-complement wrap of a Go signed integer conversion `intN(x)`. -/
def wrapSigned (w : Nat) (i : Int) : Int :=
  (i + 2 ^ (w - 1)) % 2 ^ w - 2 ^ (w - 1)

/-- Wrap of a Go unsigned integer conversion `uintN(x)`. -/
def wrapUnsigned (w : Nat) (i : Int) : Int :=
  i % 2 ^ w

/-- `reflect.ValueOf(dst).IsValid()`: false only for an untyped nil. -/
def reflectValid : DstKind → Bool
  | DstKind.nilDst => false
  | _ => true

/-- `reflect.ValueOf(dst).Kind() == reflect.Ptr`. -/
def reflectKindIsPtr : DstKind → Bool
  | DstKind.nilDst => false
  | DstKind.nonPtr => false
  | _ => true

/-- The checks `setValueTo` performs after its type switch: nil-interface
error, non-pointer error, otherwise a nil-error return (regardless of
whether any switch case wrote to the destination). -/
def afterSwitch (dst : DstKind) (written : Option GoValue) : SetResult :=
  if reflectValid dst = false then SetResult.err "setValueTo nil"
  else if reflectKindIsPtr dst = false then SetResult.err "setValueTo to nonsettable"
  else SetResult.ok written

/-- `func setValueTo(src, dst interface{}) error`: the type switch on the
destination (each numeric case converting through the total gio helpers;
the `*[]byte` and `*bool` cases using unchecked type assertions that panic
on a kind mismatch), followed by the reflect-based nil/non-pointer checks. -/
def setValueTo (src : GoValue) (dst : DstKind) : SetResult :=
  match dst with
  | DstKind.ptrString => afterSwitch dst (some (GoValue.str (gioToString src)))
  | DstKind.ptrBytes =>
    match src with
    | GoValue.bytes b => afterSwitch dst (some (GoValue.bytes b))
    | _ => SetResult.panics
  | DstKind.ptrInt => afterSwitch dst (some (GoValue.int (wrapSigned 64 (gioToInt64 src))))
  | DstKind.ptrInt8 => afterSwitch dst (some (GoValue.int (wrapSigned 8 (gioToInt64 src))))
  | DstKind.ptrInt16 => afterSwitch dst (some (GoValue.int (wrapSigned 16 (gioToInt64 src))))
  | DstKind.ptrInt32 => afterSwitch dst (some (GoValue.int (wrapSigned 32 (gioToInt64 src))))
  | DstKind.ptrInt64 => afterSwitch dst (some (GoValue.int (gioToInt64 src)))
  | DstKind.ptrUint => afterSwitch dst (some (GoValue.int (wrapUnsigned 64 (gioToInt64 src))))
  | DstKind.ptrUint8 => afterSwitch dst (some (GoValue.int (wrapUnsigned 8 (gioToInt64 src))))
  | DstKind.ptrUint16 => afterSwitch dst (some (GoValue.int (wrapUnsigned 16 (gioToInt64 src))))
  | DstKind.ptrUint32 => afterSwitch dst (some (GoValue.int (wrapUnsigned 32 (gioToInt64 src))))
  | DstKind.ptrUint64 => afterSwitch dst (some (GoValue.int (wrapUnsigned 64 (gioToInt64 src))))
  | DstKind.ptrBool =>
    match src with
    | GoValue.bool b => afterSwitch dst (some (GoValue.bool b))
    | _ => SetResult.panics
  | DstKind.ptrFloat32 => afterSwitch dst (some GoValue.float)
  | DstKind.ptrFloat64 => afterSwitch dst (some GoValue.float)
  | DstKind.ptrOther => afterSwitch dst none
  | DstKind.nonPtr => afterSwitch dst none
  | DstKind.nilDst => afterSwitch dst none

/-- Whether a `setValueTo` outcome is a non-nil error return. -/
def SetResult.isErr : SetResult → Bool
  | SetResult.err _ => true
  | _ => false

/-- Whether a `setValueTo` outcome is a nil-error return. -/
def SetResult.isOk : SetResult → Bool
  | SetResult.ok _ => true
  | _ => false

/-- A decoded row: ordered key fields `K` and value fields `V`. -/
structure Row where
  K : List GoValue
  V : List GoValue
deriving DecidableEq

/-- Outcome of a `SaveFirstRowTo` row-assignment callback: nil return,
non-nil error return, a panic propagated from `setValueTo`, or an
index-out-of-range panic from `decodedObjects[counter]`. -/
inductive SaveOutcome where
  | ok : SaveOutcome
  | err : String → SaveOutcome
  | panics : SaveOutcome
  | indexOutOfRange : SaveOutcome
deriving DecidableEq

/-- One of the two non-pipe assignment loops of `SaveFirstRowTo`:
`for _, v := range fields { if err := setValueTo(v, decodedObjects[counter]); ...; counter++ }`.
The destination slot is indexed by `counter` with no bounds check; an
out-of-range index is the Go run-time panic. Returns the outcome and the
counter value reached. -/
def assignFields (fields : List GoValue) (dests : List DstKind) (counter : Nat) :
    SaveOutcome × Nat :=
  match fields with
  | [] => (SaveOutcome.ok, counter)
  | v :: rest =>
    match dests[counter]? with
    | none => (SaveOutcome.indexOutOfRange, counter)
    | some d =>
      match setValueTo v d with
      | SetResult.panics => (SaveOutcome.panics, counter)
      | SetResult.err m => (SaveOutcome.err m, counter)
      | SetResult.ok _ => assignFields rest dests (counter + 1)

/-- The non-pipe branch of `SaveFirstRowTo` applied to a decoded row: the
key-field loop followed, on success, by the value-field loop continuing
with the same counter. -/
def saveFirstRowNonPipe (row : Row) (dests : List DstKind) : SaveOutcome :=
  match assignFields row.K dests 0 with
  | (SaveOutcome.ok, c) => (assignFields row.V dests c).1
  | (r, _) => r

/-- The pipe branch of `SaveFirstRowTo`:
`for i, o := range decodedObjects { if i >= len(args) { break } ... }` —
iterates over the destinations, breaks when the arguments run out, and
returns an error when a destination is not a `*string`. -/
def savePipeLoop (args : List String) : List DstKind → Nat → SaveOutcome
  | [], _ => SaveOutcome.ok
  | d :: rest, i =>
    if args.length ≤ i then SaveOutcome.ok
    else
      match d with
      | DstKind.ptrString => savePipeLoop args rest (i + 1)
      | _ => SaveOutcome.err "Should save to *string."

/-- A concrete row with one key field and one value field. -/
def rowEx : Row := Row.mk [GoValue.str "a"] [GoValue.str "b"]

end Gleam

namespace Gleam

/-- `intArrayEquals` decides list equality. -/
theorem intArrayEquals_iff (a b : List Int) : intArrayEquals a b = true ↔ a = b := by
  induction a generalizing b with
  | nil =>
    cases b <;> simp [intArrayEquals]
  | cons x xs ih =>
    cases b with
    | nil => simp [intArrayEquals]
    | cons y ys =>
      by_cases hl : xs.length = ys.length
      · have h1 : intArrayEquals (x :: xs) (y :: ys)
            = ((x == y) && (xs.zip ys).all (fun p => p.1 == p.2)) := by
          simp [intArrayEquals, hl]
        have h2 : intArrayEquals xs ys = (xs.zip ys).all (fun p => p.1 == p.2) := by
          simp [intArrayEquals, hl]
        rw [h1, Bool.and_eq_true, beq_iff_eq, ← h2, ih, List.cons.injEq]
      · have h1 : intArrayEquals (x :: xs) (y :: ys) = false := by
          simp only [intArrayEquals, List.length_cons]
          rw [if_neg (by omega)]
        rw [h1]
        constructor
        · intro h; simp at h
        · intro h
          injection h with hx hxs
          subst hxs
          exact absurd rfl hl

/-- When one of the two short-circuit conditions holds, `Partition` returns
the flow and dataset unchanged. -/
theorem Partition_sc (fl : Flow) (d : Dataset) (nm : String) (shard : Nat)
    (indexes : List Int)
    (h : (d.isPartitionedBy = indexes ∧ d.shards = shard) ∨ (d.shards = 1 ∧ shard = 1)) :
    Partition fl d nm shard indexes = (fl, d) := by
  unfold Partition
  rcases h with ⟨h1, h2⟩ | ⟨h1, h2⟩
  · rw [if_pos (by simp [intArrayEquals_iff, h1, h2])]
  · by_cases hb : (intArrayEquals d.isPartitionedBy indexes && (shard == d.shards)) = true
    · rw [if_pos hb]
    · rw [if_neg hb, if_pos (by simp [h1, h2])]

/-- When neither short-circuit condition holds, `Partition` inserts two
steps if `shard > 1` and one step otherwise. -/
theorem Partition_steps_len (fl : Flow) (d : Dataset) (nm : String) (shard : Nat)
    (indexes : List Int)
    (h1 : ¬(d.isPartitionedBy = indexes ∧ d.shards = shard))
    (h2 : ¬(d.shards = 1 ∧ shard = 1)) :
    (Partition fl d nm shard indexes).1.steps.length
      = fl.steps.length + (if 1 < shard then 2 else 1) := by
  have hb : ¬ (intArrayEquals d.isPartitionedBy indexes && (shard == d.shards)) = true := by
    simp only [Bool.and_eq_true, beq_iff_eq, intArrayEquals_iff]
    rintro ⟨ha, hbq⟩
    exact h1 ⟨ha, hbq.symm⟩
  have hb2 : ¬ ((1 == d.shards) && (shard == 1)) = true := by
    simp only [Bool.and_eq_true, beq_iff_eq]
    rintro ⟨ha, hbq⟩
    exact h2 ⟨ha.symm, hbq⟩
  unfold Partition
  rw [if_neg hb, if_neg hb2]
  by_cases hs : 1 < shard <;>
    simp [partition_scatter, partition_collect, newNextDataset,
      AddOneToEveryNStep, AddLinkedNToOneStep, addStep, hs]

/-- C7: `Partition` returns its input unchanged and inserts no new graph
steps exactly when (a) the current partition key equals `indexes` and the
current shard count equals `shard`, or (b) the current shard count is 1 and
`shard` is 1; in all other cases at least one new step is inserted. -/
theorem partition_short_circuit_iff (fl : Flow) (d : Dataset) (nm : String) (shard : Nat)
    (indexes : List Int) :
    (Partition fl d nm shard indexes = (fl, d) ↔
      ((d.isPartitionedBy = indexes ∧ d.shards = shard) ∨ (d.shards = 1 ∧ shard = 1))) ∧
    ((Partition fl d nm shard indexes).1.steps.length = fl.steps.length ↔
      ((d.isPartitionedBy = indexes ∧ d.shards = shard) ∨ (d.shards = 1 ∧ shard = 1))) := by
  by_cases hcond :
      ((d.isPartitionedBy = indexes ∧ d.shards = shard) ∨ (d.shards = 1 ∧ shard = 1))
  · rw [Partition_sc fl d nm shard indexes hcond]
    simp [hcond]
  · rw [not_or] at hcond
    have hlen := Partition_steps_len fl d nm shard indexes hcond.1 hcond.2
    constructor
    · constructor
      · intro h
        have h3 := congrArg (fun p => p.1.steps.length) h
        simp only at h3
        rw [hlen] at h3
        by_cases hs : 1 < shard
        · rw [if_pos hs] at h3; omega
        · rw [if_neg hs] at h3; omega
      · intro h; exact absurd h (not_or.mpr hcond)
    · constructor
      · intro h
        rw [hlen] at h
        by_cases hs : 1 < shard
        · rw [if_pos hs] at h; omega
        · rw [if_neg hs] at h; omega
      · intro h; exact absurd h (not_or.mpr hcond)

/-- When neither short-circuit condition holds, the dataset `Partition`
returns has `shard` shards (after collect) when `shard > 1`, and
`d.shards * shard` shards (scatter only) otherwise; its key is `indexes`. -/
theorem Partition_result (fl : Flow) (d : Dataset) (nm : String) (shard : Nat)
    (indexes : List Int)
    (h1 : ¬(d.isPartitionedBy = indexes ∧ d.shards = shard))
    (h2 : ¬(d.shards = 1 ∧ shard = 1)) :
    (Partition fl d nm shard indexes).2
      = if 1 < shard then Dataset.mk (fl.nextId + 1) shard indexes
        else Dataset.mk fl.nextId (d.shards * shard) indexes := by
  have hb : ¬ (intArrayEquals d.isPartitionedBy indexes && (shard == d.shards)) = true := by
    simp only [Bool.and_eq_true, beq_iff_eq, intArrayEquals_iff]
    rintro ⟨ha, hbq⟩
    exact h1 ⟨ha, hbq.symm⟩
  have hb2 : ¬ ((1 == d.shards) && (shard == 1)) = true := by
    simp only [Bool.and_eq_true, beq_iff_eq]
    rintro ⟨ha, hbq⟩
    exact h2 ⟨ha.symm, hbq⟩
  unfold Partition
  rw [if_neg hb, if_neg hb2]
  by_cases hs : 1 < shard <;>
    simp [partition_scatter, partition_collect, newNextDataset,
      AddOneToEveryNStep, AddLinkedNToOneStep, addStep, hs]

/-- C4: with `shard > 1` and no short-circuit, `Partition` builds exactly
two steps: a one-to-every-`shard` scatter step whose output dataset has
`d.shards * shard` shards and partition key `indexes`, then a
linked-N-to-one collect step with group size `d.shards` whose output
dataset has `shard` shards and partition key `indexes`. -/
theorem partition_two_steps (fl : Flow) (d : Dataset) (nm : String) (shard : Nat)
    (indexes : List Int) (hk : 1 < shard)
    (hnc : ¬(d.isPartitionedBy = indexes ∧ d.shards = shard)) :
    (Partition fl d nm shard indexes).1.steps = fl.steps ++
      [Step.mk nm d (some (Dataset.mk fl.nextId (d.shards * shard) indexes))
         (FanoutShape.oneToEveryN shard) (Instr.scatterPartitions indexes) false,
       Step.mk nm (Dataset.mk fl.nextId (d.shards * shard) indexes)
         (some (Dataset.mk (fl.nextId + 1) shard indexes))
         (FanoutShape.linkedNToOne d.shards) Instr.collectPartitions false] ∧
    (Partition fl d nm shard indexes).2 = Dataset.mk (fl.nextId + 1) shard indexes := by
  have hb : ¬ (intArrayEquals d.isPartitionedBy indexes && (shard == d.shards)) = true := by
    simp only [Bool.and_eq_true, beq_iff_eq, intArrayEquals_iff]
    rintro ⟨ha, hbq⟩
    exact hnc ⟨ha, hbq.symm⟩
  have hb2 : ¬ ((1 == d.shards) && (shard == 1)) = true := by
    simp only [Bool.and_eq_true, beq_iff_eq]
    rintro ⟨-, hbq⟩
    omega
  have hdiv : d.shards * shard / shard = d.shards := Nat.mul_div_cancel d.shards (by omega)
  unfold Partition
  rw [if_neg hb, if_neg hb2]
  refine ⟨?_, ?_⟩ <;>
    simp [partition_scatter, partition_collect, newNextDataset,
      AddOneToEveryNStep, AddLinkedNToOneStep, addStep, hk, hdiv]

/-- Concrete check for `partition_two_steps`: hypotheses hold at a
two-shard unpartitioned dataset with target shard count 3, and the final
dataset has 3 shards with partition key `[1]`. -/
theorem partition_two_steps_check :
    (1 < 3 ∧ ¬(dsTwo.isPartitionedBy = ([1] : List Int) ∧ dsTwo.shards = 3)) ∧
    (Partition flow0 dsTwo "p" 3 [1]).2 = Dataset.mk 1 3 [1] :=
  ⟨⟨by decide, by decide⟩,
    (partition_two_steps flow0 dsTwo "p" 3 [1] (by decide) (by decide)).2⟩

/-- C2: counterexample — with target shard count 1 on a two-shard dataset,
calling `Partition` a second time with the same arguments inserts one more
graph step instead of short-circuiting (the first call leaves
`len(d.Shards) = 2`, so `shard == len(d.Shards)` fails on the second call
and it scatters again). -/
theorem partition_repeat_adds_step_cex :
    (Partition (Partition flow0 dsTwo "p" 1 [1]).1 (Partition flow0 dsTwo "p" 1 [1]).2
        "p" 1 [1]).1.steps.length
      = (Partition flow0 dsTwo "p" 1 [1]).1.steps.length + 1 := by decide

/-- C2 (amended): `Partition` is idempotent at the graph level whenever the
target shard count is not 1 or the input dataset has a single shard: the
second call with the same arguments short-circuits, inserting zero steps
and returning its input (hence equal shard count and partition key). -/
theorem partition_idempotent_amended (fl : Flow) (d : Dataset) (nm : String) (shard : Nat)
    (indexes : List Int) (h : shard ≠ 1 ∨ d.shards = 1) :
    Partition (Partition fl d nm shard indexes).1 (Partition fl d nm shard indexes).2
        nm shard indexes
      = Partition fl d nm shard indexes := by
  by_cases hcond :
      ((d.isPartitionedBy = indexes ∧ d.shards = shard) ∨ (d.shards = 1 ∧ shard = 1))
  · rw [Partition_sc fl d nm shard indexes hcond]
    exact Partition_sc fl d nm shard indexes hcond
  · rw [not_or] at hcond
    have hres := Partition_result fl d nm shard indexes hcond.1 hcond.2
    by_cases hs : 1 < shard
    · rw [if_pos hs] at hres
      have hsc := Partition_sc (Partition fl d nm shard indexes).1
          (Partition fl d nm shard indexes).2 nm shard indexes
          (Or.inl ⟨by rw [hres], by rw [hres]⟩)
      rw [hsc]
    · have hs1 : shard ≠ 1 := by
        intro he
        rcases h with hne | hds
        · exact hne he
        · exact hcond.2 ⟨hds, he⟩
      have hs0 : shard = 0 := by omega
      rw [if_neg hs] at hres
      have hsc := Partition_sc (Partition fl d nm shard indexes).1
          (Partition fl d nm shard indexes).2 nm shard indexes
          (Or.inl ⟨by rw [hres], by rw [hres]; simp [hs0]⟩)
      rw [hsc]

/-- Concrete check for `partition_idempotent_amended`: the hypothesis holds
for target shard count 2, where a repeated `Partition` is the identity. -/
theorem partition_idempotent_amended_check :
    ((2 : Nat) ≠ 1 ∨ dsTwo.shards = 1) ∧
    Partition (Partition flow0 dsTwo "p" 2 [1]).1 (Partition flow0 dsTwo "p" 2 [1]).2
        "p" 2 [1]
      = Partition flow0 dsTwo "p" 2 [1] :=
  ⟨Or.inl (by decide),
    partition_idempotent_amended flow0 dsTwo "p" 2 [1] (Or.inl (by decide))⟩

/-- C8: `RoundRobin` is the identity (same dataset handle, no new step)
when the target shard count equals the current shard count; otherwise it
inserts exactly one one-to-all (all-inputs-to-all-outputs) step and returns
a new dataset with `shard` shards. -/
theorem roundRobin_identity_or_one_step (fl : Flow) (d : Dataset) (nm : String)
    (shard : Nat) :
    (shard = d.shards → RoundRobin fl d nm shard = (fl, d)) ∧
    (shard ≠ d.shards →
      (RoundRobin fl d nm shard).1.steps = fl.steps ++
        [Step.mk nm d (some (Dataset.mk fl.nextId shard []))
          FanoutShape.oneToAll Instr.roundRobin false] ∧
      (RoundRobin fl d nm shard).2 = Dataset.mk fl.nextId shard []) := by
  constructor
  · intro h
    unfold RoundRobin
    rw [if_pos (by simp [h])]
  · intro h
    have hb : ¬ (d.shards == shard) = true := by
      simp only [beq_iff_eq]
      exact fun he => h he.symm
    unfold RoundRobin
    rw [if_neg hb]
    exact ⟨by simp [newNextDataset, AddOneToAllStep, addStep], rfl⟩

/-- Concrete check for `roundRobin_identity_or_one_step`: identity at the
current shard count, a 3-shard result otherwise. -/
theorem roundRobin_identity_or_one_step_check :
    RoundRobin flow0 dsTwo "r" 2 = (flow0, dsTwo) ∧
    ((3 : Nat) ≠ dsTwo.shards ∧ (RoundRobin flow0 dsTwo "r" 3).2 = Dataset.mk 0 3 []) :=
  ⟨(roundRobin_identity_or_one_step flow0 dsTwo "r" 2).1 (by decide),
    by decide, ((roundRobin_identity_or_one_step flow0 dsTwo "r" 3).2 (by decide)).2⟩

/-- C9: when `RoundRobin` does not short-circuit, the returned dataset has
an empty partition key, regardless of the input dataset's partition key. -/
theorem roundRobin_clears_partition_key (fl : Flow) (d : Dataset) (nm : String)
    (shard : Nat) (h : shard ≠ d.shards) :
    (RoundRobin fl d nm shard).2.isPartitionedBy = [] := by
  have hb : ¬ (d.shards == shard) = true := by
    simp only [beq_iff_eq]
    exact fun he => h he.symm
  unfold RoundRobin
  rw [if_neg hb]
  rfl

/-- Concrete check for `roundRobin_clears_partition_key`: a dataset keyed
by `[1]` loses its key after a non-trivial `RoundRobin`. -/
theorem roundRobin_clears_partition_key_check :
    ((3 : Nat) ≠ dsKeyed.shards ∧ dsKeyed.isPartitionedBy = [1]) ∧
    (RoundRobin flow0 dsKeyed "r" 3).2.isPartitionedBy = [] :=
  ⟨⟨by decide, by decide⟩, roundRobin_clears_partition_key flow0 dsKeyed "r" 3 (by decide)⟩

/-- Indexing a list by `getD` over its index range reproduces the list. -/
theorem getD_range_map {α : Type} (l : List α) (dflt : α) :
    (List.range l.length).map (fun i => l.getD i dflt) = l := by
  induction l with
  | nil => rfl
  | cons a t ih =>
    rw [List.length_cons, List.range_succ_eq_map, List.map_cons, List.map_map]
    have hc : ((fun i => (a :: t).getD i dflt) ∘ Nat.succ) = fun i => t.getD i dflt := by
      funext i
      simp [List.getD_cons_succ]
    rw [hc, ih]
    simp

/-- The aggregation loop over a full channel returns nil iff every received
completion is nil. -/
theorem aggLoop_none_iff (sent : List (Option String)) :
    aggLoop sent.length sent = none ↔ ∀ e ∈ sent, e = none := by
  induction sent with
  | nil => simp [aggLoop]
  | cons e rest ih =>
    cases e with
    | none => simpa [aggLoop] using ih
    | some msg => simp [aggLoop]

/-- If position `p` of the channel holds the first failure (all earlier
positions nil), the aggregation loop returns that failure after exactly
`p + 1` receives. -/
theorem aggLoop_first_err (p : Nat) (sent : List (Option String)) (msg : String)
    (hp : sent[p]? = some (some msg))
    (hq : ∀ q, q < p → sent[q]? = some none) :
    aggLoop sent.length sent = some msg ∧ aggReadCount sent.length sent = p + 1 := by
  induction p generalizing sent with
  | zero =>
    cases sent with
    | nil => simp at hp
    | cons e rest =>
      simp only [List.getElem?_cons_zero, Option.some.injEq] at hp
      subst hp
      simp [aggLoop, aggReadCount]
  | succ p ih =>
    cases sent with
    | nil => simp at hp
    | cons e rest =>
      have h0 := hq 0 (Nat.succ_pos p)
      simp only [List.getElem?_cons_zero, Option.some.injEq] at h0
      subst h0
      simp only [List.getElem?_cons_succ] at hp
      have hq2 : ∀ q, q < p → rest[q]? = some none := by
        intro q hqlt
        have hs := hq (q + 1) (by omega)
        simpa using hs
      have hrec := ih rest hp hq2
      refine ⟨?_, ?_⟩ <;> simp [aggLoop, aggReadCount, hrec.1, hrec.2]

/-- Depositing into a buffered channel with enough free capacity never
blocks. -/
theorem sendAll_isSome {α : Type} (msgs : List α) (c : GoChan α)
    (h : c.buffer.length + msgs.length ≤ c.capacity) :
    (sendAll c msgs).isSome = true := by
  induction msgs generalizing c with
  | nil => simp [sendAll]
  | cons a rest ih =>
    simp only [List.length_cons] at h
    have hlt : c.buffer.length < c.capacity := by omega
    have hsend : c.trySend a = some (GoChan.mk c.capacity (c.buffer ++ [a])) := by
      simp [GoChan.trySend, hlt]
    simp only [sendAll, hsend]
    exact ih (GoChan.mk c.capacity (c.buffer ++ [a])) (by simp; omega)

/-- C1: counterexample — a valid execution over two shards in which shard 1
completes first: the aggregator reads shard 1's result before shard 0's, so
it does not drain completions in shard-index order. -/
theorem output_drain_index_order_cex :
    List.Perm [1, 0] (List.range 2) ∧
    drainedShards [none, none] [1, 0] = [1, 0] ∧
    drainedShards [none, none] [1, 0] ≠ [0, 1] := by
  refine ⟨by decide, by decide, by decide⟩

/-- C1 (amended): the aggregator drains completions in completion order,
not shard-index order: the shard indexes it reads are exactly the first
`aggReads` entries of the completion order. -/
theorem output_drains_in_completion_order (results : List (Option String))
    (order : List Nat) :
    drainedShards results order = order.take (aggReads results order) := by
  have h : ∀ k : Nat, ((chanContents results order).take k).map Prod.fst = order.take k := by
    intro k
    show ((order.map (fun i => (i, results.getD i none))).take k).map Prod.fst = order.take k
    rw [← List.map_take, List.map_map]
    have hfst : (Prod.fst ∘ fun i : Nat => (i, results.getD i none)) = id := by
      funext i
      rfl
    rw [hfst, List.map_id]
  unfold drainedShards
  exact h (aggReads results order)

/-- C3: for every execution (every completion order that is a permutation
of the shard indexes): the aggregator returns nil iff every per-shard
handler returned nil; on the first failure in completion order it returns
that failure after exactly `p + 1` receives (not waiting for the remaining
completions); and the completion channel is created with capacity
`len(readers)`, so every shard task can deposit its result without
blocking. -/
theorem output_error_aggregation (results : List (Option String)) (order : List Nat)
    (hperm : List.Perm order (List.range results.length)) :
    (outputRun results order = none ↔ ∀ e ∈ results, e = none) ∧
    (∀ p msg, (sentErrors results order)[p]? = some (some msg) →
      (∀ q, q < p → (sentErrors results order)[q]? = some none) →
      outputRun results order = some msg ∧ aggReads results order = p + 1) ∧
    (outputErrChan results.length).capacity = results.length ∧
    (∀ deposits : List (Option String), deposits.length ≤ results.length →
      (sendAll (outputErrChan results.length) deposits).isSome = true) := by
  have hsent : sentErrors results order = order.map (fun i => results.getD i none) := by
    simp [sentErrors, chanContents, List.map_map]
  have hlen : (sentErrors results order).length = results.length := by
    rw [hsent]
    simp [hperm.length_eq]
  have hpermSent : List.Perm (sentErrors results order) results := by
    rw [hsent]
    have h2 := hperm.map (fun i => results.getD i none)
    rw [getD_range_map] at h2
    exact h2
  refine ⟨?_, ?_, rfl, ?_⟩
  · have hrun : outputRun results order
        = aggLoop (sentErrors results order).length (sentErrors results order) := by
      unfold outputRun
      rw [hlen]
    rw [hrun, aggLoop_none_iff]
    constructor
    · intro h e he
      exact h e (hpermSent.mem_iff.mpr he)
    · intro h e he
      exact h e (hpermSent.mem_iff.mp he)
  · intro p msg hp hq
    have h := aggLoop_first_err p (sentErrors results order) msg hp hq
    rw [hlen] at h
    exact ⟨h.1, h.2⟩
  · intro deposits hd
    exact sendAll_isSome deposits (outputErrChan results.length)
      (by simpa [outputErrChan, makeChan] using hd)

/-- Concrete check for `output_error_aggregation`: with shard 0 failing and
completing first, the aggregator returns the failure after one receive. -/
theorem output_error_aggregation_check :
    outputRun [some "boom", none] [0, 1] = some "boom" ∧
    aggReads [some "boom", none] [0, 1] = 1 :=
  (output_error_aggregation [some "boom", none] [0, 1] (by decide)).2.1 0 "boom"
    (by decide) (fun q hq => absurd hq (Nat.not_lt_zero q))

/-- C5: counterexample — a destination that is a pointer to an unsupported
type is not a valid scalar slot reference, yet `setValueTo` reports success
(a nil error) and writes nothing to the destination, instead of returning
an error: no switch case matches and the trailing reflect checks only
reject nil and non-pointer destinations. -/
theorem setValueTo_unsupported_ptr_cex :
    setValueTo (GoValue.str "x") DstKind.ptrOther = SetResult.ok none ∧
    (setValueTo (GoValue.str "x") DstKind.ptrOther).isErr = false :=
  ⟨rfl, rfl⟩

/-- C5 (amended): `setValueTo` returns a non-nil error exactly when the
destination is an untyped nil interface or a non-pointer; a pointer to an
unsupported type is reported as success with the destination left
unassigned. -/
theorem setValueTo_error_characterization (src : GoValue) (dst : DstKind) :
    ((setValueTo src dst).isErr = true ↔ (dst = DstKind.nilDst ∨ dst = DstKind.nonPtr)) ∧
    setValueTo src DstKind.ptrOther = SetResult.ok none := by
  refine ⟨?_, rfl⟩
  cases dst <;> cases src <;>
    simp [setValueTo, afterSwitch, reflectValid, reflectKindIsPtr, SetResult.isErr]

/-- C6: at the failing input (a text value coerced into a `*bool`, or a
non-byte-sequence value coerced into a `*[]byte`), `setValueTo` panics via
an unchecked type assertion instead of returning a TypeMismatch error to
the caller. -/
theorem setValueTo_cross_kind_panics :
    setValueTo (GoValue.str "true") DstKind.ptrBool = SetResult.panics ∧
    setValueTo (GoValue.int 1) DstKind.ptrBytes = SetResult.panics :=
  ⟨rfl, rfl⟩

/-- If `l[n]? = some a` then dropping `n` elements exposes `a` at the head. -/
theorem drop_eq_cons_of_getElem? {α : Type} (l : List α) (n : Nat) (a : α)
    (h : l[n]? = some a) : l.drop n = a :: l.drop (n + 1) := by
  induction l generalizing n with
  | nil => simp at h
  | cons x xs ih =>
    cases n with
    | zero =>
      simp only [List.getElem?_cons_zero, Option.some.injEq] at h
      subst h
      simp
    | succ m =>
      simp only [List.getElem?_cons_succ] at h
      simp only [List.drop_succ_cons]
      exact ih m h

/-- The two sequential assignment loops of `SaveFirstRowTo` compose like a
single loop over the concatenated field list. -/
theorem assignFields_append (a b : List GoValue) (dests : List DstKind) (c : Nat) :
    assignFields (a ++ b) dests c =
      match assignFields a dests c with
      | (SaveOutcome.ok, c2) => assignFields b dests c2
      | r => r := by
  induction a generalizing c with
  | nil => simp [assignFields]
  | cons v rest ih =>
    cases hd : dests[c]? with
    | none => simp [assignFields, hd]
    | some d =>
      cases hs : setValueTo v d with
      | err m => simp [assignFields, hd, hs]
      | panics => simp [assignFields, hd, hs]
      | ok w => simp [assignFields, hd, hs, ih]

/-- When the assignment loop has more fields than remaining destination
slots and every performed assignment succeeds, it reaches the out-of-range
index access. -/
theorem assignFields_overrun (fields : List GoValue) (dests : List DstKind) (c : Nat)
    (hlen : dests.length - c < fields.length)
    (hok : ∀ p ∈ fields.zip (dests.drop c), (setValueTo p.1 p.2).isOk = true) :
    (assignFields fields dests c).1 = SaveOutcome.indexOutOfRange := by
  induction fields generalizing c with
  | nil => exact absurd hlen (Nat.not_lt_zero _)
  | cons v rest ih =>
    cases hd : dests[c]? with
    | none => simp [assignFields, hd]
    | some d =>
      have hc : c < dests.length := by
        by_contra hcc
        push_neg at hcc
        rw [List.getElem?_eq_none hcc] at hd
        cases hd
      have hdrop := drop_eq_cons_of_getElem? dests c d hd
      have hokhead : (setValueTo v d).isOk = true := by
        apply hok (v, d)
        rw [hdrop, List.zip_cons_cons]
        exact List.mem_cons_self _ _
      cases hs : setValueTo v d with
      | err m => rw [hs] at hokhead; cases hokhead
      | panics => rw [hs] at hokhead; cases hokhead
      | ok w =>
        simp only [assignFields, hd, hs]
        apply ih (c + 1)
        · simp only [List.length_cons] at hlen
          omega
        · intro p hp
          apply hok p
          rw [hdrop, List.zip_cons_cons]
          exact List.mem_cons_of_mem _ hp

/-- The non-pipe branch over a row equals the single loop over key fields
followed by value fields. -/
theorem saveFirstRowNonPipe_eq_append (row : Row) (dests : List DstKind) :
    saveFirstRowNonPipe row dests = (assignFields (row.K ++ row.V) dests 0).1 := by
  rw [assignFields_append]
  unfold saveFirstRowNonPipe
  cases h1 : assignFields row.K dests 0 with
  | mk outc c => cases outc <;> simp

/-- The pipe branch never performs an out-of-range index access: it breaks
when the arguments run out and stops when the destinations run out. -/
theorem savePipeLoop_no_overrun (args : List String) (ds : List DstKind) (i : Nat) :
    savePipeLoop args ds i ≠ SaveOutcome.indexOutOfRange := by
  induction ds generalizing i with
  | nil => simp [savePipeLoop]
  | cons d rest ih =>
    by_cases hi : args.length ≤ i
    · simp [savePipeLoop, hi]
    · cases d <;> simp [savePipeLoop, hi]
      exact ih (i + 1)

/-- C10: in the non-pipe branch of `SaveFirstRowTo`, the destination slots
are indexed with no bounds check: for every decoded row whose key plus
value field count exceeds the number of destination objects (all performed
assignments succeeding), the assignment loop indexes past the end of the
destination list instead of stopping or returning an error — unlike the
pipe branch, which never overruns. -/
theorem saveFirstRow_overruns (row : Row) (dests : List DstKind)
    (hlen : dests.length < row.K.length + row.V.length)
    (hok : ∀ p ∈ (row.K ++ row.V).zip dests, (setValueTo p.1 p.2).isOk = true) :
    saveFirstRowNonPipe row dests = SaveOutcome.indexOutOfRange ∧
    ∀ (args : List String) (ds : List DstKind) (i : Nat),
      savePipeLoop args ds i ≠ SaveOutcome.indexOutOfRange := by
  constructor
  · rw [saveFirstRowNonPipe_eq_append]
    apply assignFields_overrun (row.K ++ row.V) dests 0
    · simp only [List.length_append, Nat.sub_zero]
      omega
    · simpa using hok
  · intro args ds i
    exact savePipeLoop_no_overrun args ds i

/-- Concrete check for `saveFirstRow_overruns`: a row with two fields and a
single destination slot hits the out-of-range access. -/
theorem saveFirstRow_overruns_check :
    ([DstKind.ptrString].length < rowEx.K.length + rowEx.V.length) ∧
    saveFirstRowNonPipe rowEx [DstKind.ptrString] = SaveOutcome.indexOutOfRange :=
  ⟨by decide, (saveFirstRow_overruns rowEx [DstKind.ptrString] (by decide) (by decide)).1⟩

end Gleam
